import Mathlib

/-
Verification of the target-s3-jsonl core (src/target_s3_json/s3.py).

The development shallowly embeds the stream-segmentation machinery
(`WrappedIoBuffer`), the configuration-resolution helpers
(`config_compression`, the proxy resolution in `main`, the flush-seconds
resolution), the upload helpers (`upload_file`, `put_object` body), and the
retry policy (`_retry_pattern`), and proves the spec's testable properties
against those embeddings.

Bytes are modelled as `List Nat` (one Nat per byte/char code), Python time
floats as `Int` (only comparisons and subtraction matter), and JSON input
lines as pre-parsed records carrying their raw bytes, their `type` string
and the `time.time()` value observed when the line is processed.
-/

namespace TargetS3

/-- A byte string, one `Nat` per byte. -/
abbrev Bytes := List Nat

/-- One newline-terminated input line: its raw bytes, the parsed `type`
field of the JSON object, and the value `time.time()` returns at the moment
`readMore` processes this line. -/
structure Msg where
  raw : Bytes
  type : String
  time : Int
deriving DecidableEq, Repr

/-- The process-wide mutable state of s3.py: the module-level globals
`curSchemaBuffer` and `lastFlushTime`. -/
structure GState where
  curSchemaBuffer : Bytes
  lastFlushTime : Int
deriving DecidableEq, Repr

/-- State of one `WrappedIoBuffer` instance (s3.py lines 195-253).  The
shared input stream is modelled by the `pending` field: the lines not yet
consumed by `readline`.  `flushSeconds` is the constructor argument stored
on the instance.  (The source also stores an unused `storedLine` flag; it
is read nowhere and omitted.) -/
structure WrappedIoBuffer where
  pending : List Msg
  closed : Bool
  empty : Bool
  buffer : Bytes
  stoppedState : Bool
  flushSeconds : Int
deriving DecidableEq, Repr

/-- The condition under which a STATE line triggers a checkpoint stop:
`line['type'] == 'STATE'` and `curTime - lastFlushTime > self.flushSeconds`. -/
def flushCond (fs : Int) (g : GState) (m : Msg) : Bool :=
  m.type = "STATE" && decide (m.time - g.lastFlushTime > fs)

/-- `WrappedIoBuffer.__init__`: `buffer` starts as the global
`curSchemaBuffer`; all flags start false. -/
def mkWrappedIoBuffer (g : GState) (input : List Msg) (flushSeconds : Int) :
    WrappedIoBuffer :=
  { pending := input
    closed := false
    empty := false
    buffer := g.curSchemaBuffer
    stoppedState := false
    flushSeconds := flushSeconds }

/-- `WrappedIoBuffer.readMore` (s3.py lines 214-242): returns early when
`empty or closed`; on EOF sets `empty`; otherwise consumes one line,
applies the STATE checkpoint check (setting `empty`/`stoppedState` and the
global `lastFlushTime`), appends SCHEMA lines to the global
`curSchemaBuffer`, and always appends the raw line to `buffer`. -/
def readMore (g : GState) (w : WrappedIoBuffer) : GState × WrappedIoBuffer :=
  if w.empty || w.closed then (g, w)
  else
    match w.pending with
    | [] => (g, { w with empty := true })
    | m :: rest =>
      let gw1 :=
        if flushCond w.flushSeconds g m then
          ({ g with lastFlushTime := m.time },
           { w with empty := true, stoppedState := true })
        else (g, w)
      let g2 :=
        if m.type = "SCHEMA" then
          { gw1.1 with curSchemaBuffer := gw1.1.curSchemaBuffer ++ m.raw }
        else gw1.1
      (g2, { gw1.2 with pending := rest, buffer := gw1.2.buffer ++ m.raw })

/-- `readSize = 8192 if size == -1 else size`. -/
def pyReadSize (size : Int) : Nat := if size = -1 then 8192 else size.toNat

/-- `WrappedIoBuffer.read` (s3.py lines 244-253): `readSize` is 8192 when
`size == -1`; one `readMore` when the buffer holds fewer than `readSize`
bytes; an empty buffer closes the stream and yields `b''`; otherwise up to
`readSize` bytes are taken off the front of the buffer.  Sizes are
modelled for `size = -1` and `size ≥ 0` (the file-like protocol); the
slice corner for other negative sizes is not modelled. -/
def read (g : GState) (w : WrappedIoBuffer) (size : Int) :
    GState × WrappedIoBuffer × Bytes :=
  let readSize : Nat := pyReadSize size
  let gw := if w.buffer.length < readSize then readMore g w else (g, w)
  if gw.2.buffer.length = 0 then
    (gw.1, { gw.2 with closed := true }, [])
  else
    (gw.1, { gw.2 with buffer := gw.2.buffer.drop readSize },
     gw.2.buffer.take readSize)

/-- A sequence of `read` calls with the given sizes; collects the
concatenation of all returned byte chunks. -/
def runReads (g : GState) (w : WrappedIoBuffer) :
    List Int → GState × WrappedIoBuffer × Bytes
  | [] => (g, w, [])
  | s :: rest =>
    let r := read g w s
    let t := runReads r.1 r.2.1 rest
    (t.1, t.2.1, r.2.2 ++ t.2.2)

/-- Modelled from the spec: the external batching component (`Loader.run`)
pulls bytes from the segmenter until it closes.  Modelled as repeated
`read` calls of 8192 bytes, with fuel bounding the number of calls. -/
def drain (fuel : Nat) (g : GState) (w : WrappedIoBuffer) :
    GState × WrappedIoBuffer × Bytes :=
  match fuel with
  | 0 => (g, w, [])
  | fuel + 1 =>
    if w.closed then (g, w, [])
    else
      let r := read g w 8192
      let t := drain fuel r.1 r.2.1
      (t.1, t.2.1, r.2.2 ++ t.2.2)

/-- Concatenation of the raw bytes of a list of lines. -/
def rawCat (ms : List Msg) : Bytes := (ms.map Msg.raw).flatten

/-- Total raw byte count of a list of lines. -/
def totalRaw (ms : List Msg) : Nat := (ms.map (fun m => m.raw.length)).sum

/-- Fuel sufficient for `drain` to run a `WrappedIoBuffer` to closure. -/
def wibMeasure (w : WrappedIoBuffer) : Nat :=
  2 + w.pending.length + w.buffer.length + totalRaw w.pending

/-- Fuel that suffices for every segment of a pipeline run over `input`
starting from globals `g`. -/
def pipeFuel (g : GState) (input : List Msg) : Nat :=
  2 + input.length + g.curSchemaBuffer.length + 2 * totalRaw input

/-- The update `readMore` makes to the process-wide globals when it
consumes line `m`: `lastFlushTime` is set to the line's time exactly when
the STATE checkpoint condition holds, and SCHEMA raw bytes are appended to
`curSchemaBuffer`. -/
def stepG (fs : Int) (g : GState) (m : Msg) : GState :=
  let g1 := if flushCond fs g m then { g with lastFlushTime := m.time } else g
  if m.type = "SCHEMA" then
    { g1 with curSchemaBuffer := g1.curSchemaBuffer ++ m.raw }
  else g1

/-- Line-level behaviour of one segment: the lines a `WrappedIoBuffer`
consumes from the input before going empty (a checkpoint stop at a STATE
line, or end of input), the resulting globals, the remaining input, and the
final `stoppedState` flag. -/
def segRunC (fs : Int) : GState → List Msg → GState × List Msg × List Msg × Bool
  | g, [] => (g, [], [], false)
  | g, m :: rest =>
    if flushCond fs g m then
      (stepG fs g m, [m], rest, true)
    else
      let t := segRunC fs (stepG fs g m) rest
      (t.1, m :: t.2.1, t.2.2.1, t.2.2.2)

/-- One segment of the byte-level pipeline: the initial buffer content the
`WrappedIoBuffer` was constructed with, the concatenation of all bytes its
`read` calls returned, and its final `stoppedState` flag. -/
structure SegResult where
  init : Bytes
  out : Bytes
  stopped : Bool
deriving DecidableEq, Repr

/-- The `main` loop (s3.py lines 275-299), byte level: each iteration
constructs a `WrappedIoBuffer` seeded with the current `curSchemaBuffer`,
lets the (spec-modelled) batching component drain it, and loops exactly
when `stoppedState` is true.  `segFuel` bounds the reads per segment and
the final `Nat` argument bounds the number of segments. -/
def runPipeline (segFuel : Nat) (fs : Int) :
    GState → List Msg → Nat → List SegResult × GState × List Msg
  | g, input, 0 => ([], g, input)
  | g, input, n + 1 =>
    let w := mkWrappedIoBuffer g input fs
    let r := drain segFuel g w
    let seg : SegResult := ⟨g.curSchemaBuffer, r.2.2, r.2.1.stoppedState⟩
    if r.2.1.stoppedState then
      let t := runPipeline segFuel fs r.1 r.2.1.pending n
      (seg :: t.1, t.2.1, t.2.2)
    else ([seg], r.1, r.2.1.pending)

/-- One segment of the line-level pipeline: initial buffer content, lines
consumed, and whether it stopped at a checkpoint. -/
structure SegSpec where
  init : Bytes
  consumed : List Msg
  stopped : Bool
deriving DecidableEq, Repr

/-- Line-level view of the `main` loop, built from `segRunC`. -/
def pipeSpec (fs : Int) : GState → List Msg → Nat → List SegSpec × GState × List Msg
  | g, input, 0 => ([], g, input)
  | g, input, n + 1 =>
    let r := segRunC fs g input
    let seg : SegSpec := ⟨g.curSchemaBuffer, r.2.1, r.2.2.2⟩
    if r.2.2.2 then
      let t := pipeSpec fs r.1 r.2.2.1 n
      (seg :: t.1, t.2.1, t.2.2)
    else ([seg], r.1, r.2.2.1)

/-- The times at which the STATE checkpoint condition fires while the
globals evolve by `stepG` over a list of lines: exactly the moments at
which `lastFlushTime` is rewritten. -/
def flushTimes (fs : Int) : GState → List Msg → List Int
  | _, [] => []
  | g, m :: rest =>
    if flushCond fs g m then m.time :: flushTimes fs (stepG fs g m) rest
    else flushTimes fs (stepG fs g m) rest

/-! ## Compression resolution (`config_compression`, s3.py lines 41-63) -/

/-- Python's `str.lower()` on the configuration value (ASCII schemes). -/
def pyLower (s : String) : String := ⟨s.data.map Char.toLower⟩

/-- Equality of `Except` results is decidable componentwise. -/
instance {ε α : Type} [DecidableEq ε] [DecidableEq α] : DecidableEq (Except ε α) := fun a b =>
  match a, b with
  | .ok x, .ok y => if h : x = y then .isTrue (by rw [h]) else .isFalse (by simp [h])
  | .error x, .error y => if h : x = y then .isTrue (by rw [h]) else .isFalse (by simp [h])
  | .ok _, .error _ => .isFalse (by simp)
  | .error _, .ok _ => .isFalse (by simp)

/-- The value stored in `config['open_func']`: the builtin `open`, or
`gzip.compress`, or `lzma.compress`. -/
inductive OpenFunc
  | pyOpen
  | gzipCompress
  | lzmaCompress
deriving DecidableEq, Repr

/-- The configuration keys `config_compression` consumes: the optional
`compression` scheme (absent or JSON-null behaves as `'none'` after the
dict-union default and the f-string lowering) and the `path_template`. -/
structure CompressionConfigIn where
  compression : Option String
  path_template : String
deriving DecidableEq, Repr

/-- The fields `config_compression` produces. -/
structure CompressionConfigOut where
  compression : String
  path_template : String
  open_func : OpenFunc
deriving DecidableEq, Repr

/-- `config_compression`: merges the default `'none'`, lowers the scheme,
sets `open_func` and appends the key suffix for gzip/lzma, and raises
`NotImplementedError` (modelled as `Except.error`) for any other scheme. -/
def config_compression (c : CompressionConfigIn) : Except String CompressionConfigOut :=
  let comp := c.compression.getD "none"
  let compLower := pyLower comp
  if compLower = "gzip" then
    .ok { compression := comp, path_template := c.path_template ++ ".gz",
          open_func := .gzipCompress }
  else if compLower = "lzma" then
    .ok { compression := comp, path_template := c.path_template ++ ".xz",
          open_func := .lzmaCompress }
  else if compLower = "" ∨ compLower = "none" then
    .ok { compression := comp, path_template := c.path_template,
          open_func := .pyOpen }
  else
    .error ("Compression type " ++ compLower ++ " is not supported. Expected: none, gzip, or lzma")

/-- Modelled from the spec: Python's `gzip.compress` (external library),
abstracted as an injective byte encoding with an exact decoder, which is
the only property the spec relies on (compression round-trip). -/
def gzipCompressBytes (b : Bytes) : Bytes := 31 :: 139 :: b

/-- Modelled from the spec: decoder for `gzipCompressBytes`. -/
def gzipDecompressBytes (b : Bytes) : Bytes := b.drop 2

/-- Modelled from the spec: Python's `lzma.compress` (external library),
abstracted as an injective byte encoding with an exact decoder. -/
def lzmaCompressBytes (b : Bytes) : Bytes := 253 :: 55 :: 122 :: b

/-- Modelled from the spec: decoder for `lzmaCompressBytes`. -/
def lzmaDecompressBytes (b : Bytes) : Bytes := b.drop 3

/-- Semantics of the resolved `open_func` applied to an in-memory payload,
as `put_object` does with `config['open_func'](joined_bytes)`:
`gzip.compress` / `lzma.compress` encode the bytes; the builtin `open`
interprets the payload as a filesystem path and performs file I/O -- it
does not return a transformed payload (on a joined JSON payload it raises
FileNotFoundError), so it is modelled as an error, not a byte encoding. -/
def applyOpenFunc : OpenFunc → Bytes → Except String Bytes
  | .gzipCompress, b => .ok (gzipCompressBytes b)
  | .lzmaCompress, b => .ok (lzmaCompressBytes b)
  | .pyOpen, _ => .error "open() interprets the payload as a file path"

/-- `b''.join(json.dumps(record).encode() + b'\n' for record in stream_data)`
with records already serialized to bytes (json.dumps is external). -/
def joinJsonLines (records : List Bytes) : Bytes :=
  (records.map (fun r => r ++ [10])).flatten

/-- The `Body` argument `put_object` computes (s3.py lines 128-130). -/
def put_object_body (open_func : OpenFunc) (records : List Bytes) :
    Except String Bytes :=
  applyOpenFunc open_func (joinJsonLines records)

/-! ## Proxy resolution in `main` (s3.py lines 282-289) -/

/-- A Python dict of proxy settings; values are `Option String` because
`environ.get('HTTPS_PROXY')` may be `None`. -/
abbrev ProxyMap := List (String × Option String)

/-- Python truthiness of `environ.get(..., None)`: `None` and `''` are
falsy. -/
def pyTruthyStrOpt : Option String → Bool
  | none => false
  | some s => !(s = "")

/-- Python truthiness of `config.get('proxies')`: `None` (absent) and an
empty dict are falsy. -/
def pyTruthyMapOpt : Option ProxyMap → Bool
  | none => false
  | some m => !m.isEmpty

/-- The proxy-resolution block of `main`: start from `{}`, take the
configured `proxies` when truthy, then overwrite with the
HTTP_PROXY/HTTPS_PROXY environment pair whenever HTTP_PROXY is truthy. -/
def resolveProxyConfig (cfgProxies : Option ProxyMap)
    (envHttpProxy envHttpsProxy : Option String) : ProxyMap :=
  let proxy0 : ProxyMap := []
  let proxy1 := if pyTruthyMapOpt cfgProxies then cfgProxies.getD [] else proxy0
  if pyTruthyStrOpt envHttpProxy then
    [("http", envHttpProxy), ("https", envHttpsProxy)]
  else proxy1

/-- The flush-interval resolution in `main` (s3.py line 291):
`config.get('flush_seconds') if config.get('flush_seconds') else 10*60`.
A present-but-zero value is falsy in Python and falls back to 600. -/
def resolveFlushSeconds (flush_seconds : Option Int) : Int :=
  match flush_seconds with
  | some v => if v ≠ 0 then v else 10 * 60
  | none => 10 * 60

/-! ## `upload_file` (s3.py lines 139-155) -/

/-- The configuration keys `upload_file` consumes.  `localFlag` models the
config key `'local'` (`local` is reserved in Lean); `remove_file` the key
of that name; absence is `none`. -/
structure UploadFileConfig where
  localFlag : Option Bool
  remove_file : Option Bool
deriving DecidableEq, Repr

/-- The state of the local file behind
`file_metadata['absolute_path']`: whether `.exists()` holds and its
`.stat().st_size`. -/
structure FileMetadataDisk where
  pathExists : Bool
  st_size : Nat
deriving DecidableEq, Repr

/-- Observable effects of one `upload_file` call: whether
`client.upload_file` was invoked (the network call, assumed successful)
and whether `absolute_path.unlink()` was invoked afterwards. -/
structure UploadOutcome where
  uploadCalled : Bool
  fileRemoved : Bool
deriving DecidableEq, Repr

/-- `upload_file`: uploads only when `config.get('local', False)` is falsy
and the file exists with non-zero size
(`file_metadata['absolute_path'].stat().st_size if ....exists() else 0`);
after a successful upload, unlinks when `config.get('remove_file', True)`.
Any other case falls through the `if` silently: no call, no error. -/
def upload_file (config : UploadFileConfig) (fm : FileMetadataDisk) : UploadOutcome :=
  if !(config.localFlag.getD false)
      && decide ((if fm.pathExists then fm.st_size else 0) > 0) then
    { uploadCalled := true, fileRemoved := config.remove_file.getD true }
  else
    { uploadCalled := false, fileRemoved := false }

/-! ## Retry policy (`_retry_pattern`, s3.py lines 32-38) -/

/-- Modelled from the spec and the backoff library's documented behaviour as
configured by `_retry_pattern` (the library is an external dependency):
`backoff.expo` with `factor=10` yields successive delays `10 * 2 ^ n`,
`max_tries=5` bounds total invocations, and only `ClientError` (the `E`
result) is caught.  `op i` gives the result of invocation `i` (0-based);
the triple returned is (final result, total invocations, delays slept
between attempts, in order). -/
def retryRun {E A : Type} (factor : Nat) (op : Nat → Except E A) :
    Nat → Nat → Except E A × Nat × List Nat
  | i, retriesLeft =>
    match op i, retriesLeft with
    | .ok a, _ => (.ok a, i + 1, [])
    | .error e, 0 => (.error e, i + 1, [])
    | .error _, r + 1 =>
      let t := retryRun factor op (i + 1) r
      (t.1, t.2.1, (factor * 2 ^ i) :: t.2.2)

/-- `_retry_pattern()` applied to an operation: `max_tries=5` (hence 4
retries), `factor=10`. -/
def retry_pattern_run {E A : Type} (op : Nat → Except E A) :
    Except E A × Nat × List Nat :=
  retryRun 10 op 0 4

/-! ## Concrete scenario input (spec section 8) -/

/-- Byte encoding of an ASCII string, one `Nat` per character. -/
def strBytes (s : String) : Bytes := s.data.map Char.toNat

/-- The scenario's SCHEMA line. -/
def scenarioSchema : Msg :=
  ⟨strBytes "\x7b\"type\":\"SCHEMA\",\"stream\":\"a\",\"schema\":\x7b\x7d\x7d\n", "SCHEMA", 100⟩

/-- The scenario's RECORD line. -/
def scenarioRecord : Msg :=
  ⟨strBytes "\x7b\"type\":\"RECORD\",\"stream\":\"a\",\"record\":\x7b\"x\":1\x7d\x7d\n", "RECORD", 100⟩

/-- The scenario's STATE line. -/
def scenarioState : Msg :=
  ⟨strBytes "\x7b\"type\":\"STATE\",\"value\":\x7b\x7d\x7d\n", "STATE", 100⟩

/-- The scenario input: SCHEMA, RECORD, STATE. -/
def scenarioInput : List Msg := [scenarioSchema, scenarioRecord, scenarioState]

/-- Globals at process start for the scenario: empty schema buffer,
`lastFlushTime = time.time()` observed at module import, which is (at most
a few seconds before) the time the three lines are processed. -/
def scenarioG0 : GState := ⟨[], 100⟩

/-- Input used to refute the literal byte-for-byte completeness claim:
a SCHEMA line, a flush-triggering STATE line, then a RECORD line. -/
def c1Input : List Msg :=
  [⟨[1], "SCHEMA", 5⟩, ⟨[2], "STATE", 10⟩, ⟨[3], "RECORD", 20⟩]

-- sanity: a single STATE line with an expired flush interval stops the segment
example :
    (readMore ⟨[], 0⟩
      (mkWrappedIoBuffer ⟨[], 0⟩ [⟨[1, 2], "STATE", 5⟩] 0)).2.stoppedState
      = true := by decide

example :
    (readMore ⟨[], 0⟩
      (mkWrappedIoBuffer ⟨[], 0⟩ [⟨[1, 2], "STATE", 5⟩] 10)).2.stoppedState
      = false := by decide

example :
    (runReads ⟨[], 0⟩
      (mkWrappedIoBuffer ⟨[], 0⟩ [⟨[1, 2], "RECORD", 5⟩, ⟨[3], "STATE", 6⟩] 100)
      [8192, 8192, 8192, 8192]).2.2 = [1, 2, 3] := by decide

example :
    (drain 10 ⟨[7], 0⟩
      (mkWrappedIoBuffer ⟨[7], 0⟩ [⟨[1, 2], "SCHEMA", 5⟩, ⟨[3], "STATE", 6⟩] 100)).2.2
      = [7, 1, 2, 3] := by decide

/-! ## Characterization lemmas for `readMore` and `read` -/

theorem rawCat_nil : rawCat [] = [] := rfl

theorem rawCat_cons (m : Msg) (ms : List Msg) :
    rawCat (m :: ms) = m.raw ++ rawCat ms := by
  simp [rawCat]

theorem rawCat_append (a b : List Msg) :
    rawCat (a ++ b) = rawCat a ++ rawCat b := by
  simp [rawCat]

theorem totalRaw_cons (m : Msg) (ms : List Msg) :
    totalRaw (m :: ms) = m.raw.length + totalRaw ms := by
  simp [totalRaw]

/-- `readMore` on a non-empty, non-closed buffer at end of input only sets
the `empty` flag. -/
theorem readMore_eof (g : GState) (w : WrappedIoBuffer)
    (he : w.empty = false) (hc : w.closed = false) (hp : w.pending = []) :
    readMore g w = (g, { w with empty := true }) := by
  obtain ⟨pending, closed, empty, buffer, stopped, fs⟩ := w
  simp only at he hc hp
  subst he hc hp
  rfl

/-- `readMore` on a non-empty, non-closed buffer with a line available
consumes that line: the globals evolve by `stepG`, the raw bytes are
appended to the buffer, and the `empty`/`stoppedState` flags are set
exactly when the STATE checkpoint condition fires. -/
theorem readMore_cons (g : GState) (w : WrappedIoBuffer) (m : Msg) (rest : List Msg)
    (he : w.empty = false) (hc : w.closed = false) (hp : w.pending = m :: rest) :
    readMore g w =
      (stepG w.flushSeconds g m,
       ⟨rest, false, flushCond w.flushSeconds g m, w.buffer ++ m.raw,
        w.stoppedState || flushCond w.flushSeconds g m, w.flushSeconds⟩) := by
  obtain ⟨pending, closed, empty, buffer, stopped, fs⟩ := w
  simp only at he hc hp
  subst he hc hp
  by_cases h1 : flushCond fs g m <;> by_cases h2 : m.type = "SCHEMA" <;>
    simp [readMore, stepG, h1, h2]

/-- `readMore` is the identity when the buffer is already empty or closed. -/
theorem readMore_noop (g : GState) (w : WrappedIoBuffer)
    (h : w.empty = true ∨ w.closed = true) :
    readMore g w = (g, w) := by
  rcases h with h | h <;> simp [readMore, h]

/-- `read` when no new line is pulled (the buffer already holds `readSize`
bytes, or the stream is empty or closed so `readMore` is a no-op): the
call slides the buffer window, closing on an exhausted buffer. -/
theorem read_slide (g : GState) (w : WrappedIoBuffer) (size : Int)
    (h : w.empty = true ∨ w.closed = true ∨ ¬(w.buffer.length < pyReadSize size)) :
    read g w size =
      if w.buffer.length = 0 then (g, { w with closed := true }, [])
      else (g, { w with buffer := w.buffer.drop (pyReadSize size) },
            w.buffer.take (pyReadSize size)) := by
  by_cases hlt : w.buffer.length < pyReadSize size
  · have hno : readMore g w = (g, w) := by
      rcases h with h | h | h
      · exact readMore_noop g w (Or.inl h)
      · exact readMore_noop g w (Or.inr h)
      · exact absurd hlt h
    simp [read, hlt, hno]
  · simp [read, hlt]

/-- `read` when the buffer is below `readSize`, expressed through
`readMore`. -/
theorem read_of_lt (g : GState) (w : WrappedIoBuffer) (size : Int)
    (hlt : w.buffer.length < pyReadSize size) :
    read g w size =
      if (readMore g w).2.buffer.length = 0 then
        ((readMore g w).1, { (readMore g w).2 with closed := true }, [])
      else
        ((readMore g w).1,
         { (readMore g w).2 with
            buffer := (readMore g w).2.buffer.drop (pyReadSize size) },
         (readMore g w).2.buffer.take (pyReadSize size)) := by
  simp only [read]
  rw [if_pos hlt]

/-- `read` at end of input (no line available, buffer below `readSize`):
`readMore` marks the stream empty, then the window slides. -/
theorem read_eof (g : GState) (w : WrappedIoBuffer) (size : Int)
    (he : w.empty = false) (hc : w.closed = false) (hp : w.pending = [])
    (hlt : w.buffer.length < pyReadSize size) :
    read g w size =
      if w.buffer.length = 0 then
        (g, { w with empty := true, closed := true }, [])
      else
        (g, { w with empty := true, buffer := w.buffer.drop (pyReadSize size) },
         w.buffer.take (pyReadSize size)) := by
  rw [read_of_lt g w size hlt, readMore_eof g w he hc hp]

/-- `read` when a line is available and the buffer is below `readSize`:
`readMore` consumes one line, then the window slides over the grown
buffer.  Stated for lines with non-empty raw bytes (`readline` never
returns `b''` for an actual line), which keeps the grown buffer
non-empty. -/
theorem read_consume (g : GState) (w : WrappedIoBuffer) (size : Int)
    (m : Msg) (rest : List Msg)
    (he : w.empty = false) (hc : w.closed = false) (hp : w.pending = m :: rest)
    (hlt : w.buffer.length < pyReadSize size) (hraw : m.raw ≠ []) :
    read g w size =
      (stepG w.flushSeconds g m,
       ⟨rest, false, flushCond w.flushSeconds g m,
        (w.buffer ++ m.raw).drop (pyReadSize size),
        w.stoppedState || flushCond w.flushSeconds g m, w.flushSeconds⟩,
       (w.buffer ++ m.raw).take (pyReadSize size)) := by
  have hlen : m.raw.length ≠ 0 := fun h => hraw (List.length_eq_zero.mp h)
  have hne : ¬((w.buffer ++ m.raw).length = 0) := by
    rw [List.length_append]; omega
  rw [read_of_lt g w size hlt, readMore_cons g w m rest he hc hp]
  rw [if_neg hne]

theorem pyReadSize_8192 : pyReadSize 8192 = 8192 := rfl

/-- After the stream is marked empty, `drain` flushes the remaining buffer
out unchanged and closes. -/
theorem drain_flush : ∀ (fuel : Nat) (g : GState) (w : WrappedIoBuffer),
    w.empty = true → w.closed = false →
    w.buffer.length + 2 ≤ fuel →
    drain fuel g w = (g, { w with buffer := [], closed := true }, w.buffer) := by
  intro fuel
  induction fuel with
  | zero => intro g w he hc hf; omega
  | succ n ih =>
    intro g w he hc hf
    have hnc : ¬(w.closed = true) := by simp [hc]
    have hr := read_slide g w 8192 (Or.inl he)
    rw [pyReadSize_8192] at hr
    simp only [drain, if_neg hnc]
    by_cases h0 : w.buffer.length = 0
    · rw [hr, if_pos h0]
      have hb : w.buffer = [] := List.length_eq_zero.mp h0
      obtain ⟨m, rfl⟩ : ∃ m, n = m + 1 := ⟨n - 1, by omega⟩
      simp only [drain, if_pos rfl]
      simp [hb]
    · rw [hr, if_neg h0]
      have hlen : (w.buffer.drop 8192).length + 2 ≤ n := by
        rw [List.length_drop]; omega
      dsimp only
      rw [ih g { w with buffer := w.buffer.drop 8192 } he hc hlen]
      simp [List.take_append_drop]

/-- With enough fuel, draining a freshly constructed (or mid-stream but
flag-clean) `WrappedIoBuffer` delivers its initial buffer followed by the
raw bytes of exactly the lines `segRunC` consumes, evolves the globals by
`stepG` over those lines, and ends closed with the `stoppedState` flag
`segRunC` predicts. -/
theorem drain_correct : ∀ (fuel : Nat) (g : GState) (w : WrappedIoBuffer),
    w.empty = false → w.closed = false → w.stoppedState = false →
    (∀ m ∈ w.pending, m.raw ≠ []) →
    wibMeasure w ≤ fuel →
    drain fuel g w =
      ((segRunC w.flushSeconds g w.pending).1,
       ⟨(segRunC w.flushSeconds g w.pending).2.2.1, true, true, [],
        (segRunC w.flushSeconds g w.pending).2.2.2, w.flushSeconds⟩,
       w.buffer ++ rawCat (segRunC w.flushSeconds g w.pending).2.1) := by
  intro fuel
  induction fuel with
  | zero => intro g w _ _ _ _ hf; simp [wibMeasure] at hf
  | succ n ih =>
    intro g w he hc hs hraw hf
    have hnc : ¬(w.closed = true) := by simp [hc]
    simp only [drain, if_neg hnc]
    by_cases hlt : w.buffer.length < 8192
    · rcases hp : w.pending with _ | ⟨m, rest⟩
      · -- end of stream: segment consumed nothing
        have hr := read_eof g w 8192 he hc hp (by rw [pyReadSize_8192]; exact hlt)
        rw [pyReadSize_8192] at hr
        by_cases h0 : w.buffer.length = 0
        · rw [hr, if_pos h0]
          have hb : w.buffer = [] := List.length_eq_zero.mp h0
          obtain ⟨k, rfl⟩ : ∃ k, n = k + 1 := by
            have := hf; simp [wibMeasure] at this; exact ⟨n - 1, by omega⟩
          simp only [drain, if_pos rfl]
          obtain ⟨pending, closed, empty, buffer, stopped, fs⟩ := w
          simp only at hp hb he hc hs
          subst hp hb he hc hs
          simp [segRunC, rawCat]
        · rw [hr, if_neg h0]
          have hlen : (w.buffer.drop 8192).length + 2 ≤ n := by
            rw [List.length_drop]
            have := hf; simp [wibMeasure, hp] at this; omega
          dsimp only
          rw [drain_flush n g { w with empty := true, buffer := w.buffer.drop 8192 }
            rfl hc hlen]
          obtain ⟨pending, closed, empty, buffer, stopped, fs⟩ := w
          simp only at hp he hc hs
          subst hp he hc hs
          simp [segRunC, rawCat, List.take_append_drop]
      · -- one line consumed
        have hmr : m.raw ≠ [] := hraw m (by rw [hp]; exact List.mem_cons_self m rest)
        have hr := read_consume g w 8192 m rest he hc hp
          (by rw [pyReadSize_8192]; exact hlt) hmr
        rw [pyReadSize_8192] at hr
        rw [hr]
        dsimp only
        by_cases hfc : flushCond w.flushSeconds g m = true
        · -- checkpoint stop: remaining buffer flushes out
          have hlen : (((w.buffer ++ m.raw).drop 8192).length) + 2 ≤ n := by
            rw [List.length_drop, List.length_append]
            have := hf; simp [wibMeasure, hp, totalRaw_cons] at this
            have hml : 1 ≤ m.raw.length :=
              Nat.pos_of_ne_zero (fun h => hmr (List.length_eq_zero.mp h))
            omega
          rw [hfc]
          simp only [Bool.or_true]
          rw [drain_flush n (stepG w.flushSeconds g m)
            ⟨rest, false, true, (w.buffer ++ m.raw).drop 8192, true, w.flushSeconds⟩
            rfl rfl hlen]
          dsimp only
          have hseg : segRunC w.flushSeconds g (m :: rest) =
              (stepG w.flushSeconds g m, [m], rest, true) := by
            simp [segRunC, hfc]
          rw [hseg]
          simp [hs, rawCat_cons, rawCat_nil, List.take_append_drop]
        · -- no stop: recurse on the rest of the input
          have hfcf : flushCond w.flushSeconds g m = false :=
            Bool.eq_false_iff.mpr hfc
          rw [hfcf]
          have hml : 1 ≤ m.raw.length :=
            Nat.pos_of_ne_zero (fun h => hmr (List.length_eq_zero.mp h))
          have hmeas : wibMeasure ⟨rest, false, false, (w.buffer ++ m.raw).drop 8192,
              w.stoppedState || false, w.flushSeconds⟩ ≤ n := by
            simp only [wibMeasure, List.length_drop, List.length_append]
            have := hf; simp [wibMeasure, hp, totalRaw_cons] at this
            omega
          have hrest : ∀ x ∈ rest, x.raw ≠ [] := by
            intro x hx; exact hraw x (by rw [hp]; exact List.mem_cons_of_mem m hx)
          have hrec := ih (stepG w.flushSeconds g m)
            ⟨rest, false, false, (w.buffer ++ m.raw).drop 8192,
             w.stoppedState || false, w.flushSeconds⟩
            rfl rfl (by simp [hs]) hrest hmeas
          rw [hs] at hrec ⊢
          rw [hrec]
          have hseg : segRunC w.flushSeconds g (m :: rest) =
              ((segRunC w.flushSeconds (stepG w.flushSeconds g m) rest).1,
               m :: (segRunC w.flushSeconds (stepG w.flushSeconds g m) rest).2.1,
               (segRunC w.flushSeconds (stepG w.flushSeconds g m) rest).2.2.1,
               (segRunC w.flushSeconds (stepG w.flushSeconds g m) rest).2.2.2) := by
            simp [segRunC, hfcf]
          rw [hseg]
          simp only [rawCat_cons]
          rw [← List.append_assoc, ← List.append_assoc, List.take_append_drop]
    · -- buffer already holds a full chunk: slide without reading more
      have hr := read_slide g w 8192 (Or.inr (Or.inr (by rw [pyReadSize_8192]; exact hlt)))
      rw [pyReadSize_8192] at hr
      have h0 : ¬(w.buffer.length = 0) := by omega
      rw [hr, if_neg h0]
      have hmeas : wibMeasure { w with buffer := w.buffer.drop 8192 } ≤ n := by
        simp only [wibMeasure, List.length_drop]
        have := hf; simp [wibMeasure] at this; omega
      have hrec := ih g { w with buffer := w.buffer.drop 8192 } he hc hs hraw hmeas
      dsimp only
      rw [hrec]
      dsimp only
      rw [← List.append_assoc, List.take_append_drop]

/-! ## Line-level lemmas about `segRunC`, `stepG` and `flushCond` -/

/-- A flush can only fire on a STATE line. -/
theorem flushCond_type (fs : Int) (g : GState) (m : Msg)
    (h : flushCond fs g m = true) : m.type = "STATE" := by
  simp [flushCond] at h
  exact h.1

/-- A flush fires exactly when the elapsed time strictly exceeds the
interval. -/
theorem flushCond_iff (fs : Int) (g : GState) (m : Msg) :
    flushCond fs g m = true ↔ m.type = "STATE" ∧ fs < m.time - g.lastFlushTime := by
  simp [flushCond]

/-- `stepG` rewrites `lastFlushTime` to the line's own time exactly when
the flush condition fires, and leaves it unchanged otherwise. -/
theorem stepG_lastFlushTime (fs : Int) (g : GState) (m : Msg) :
    (stepG fs g m).lastFlushTime =
      (if flushCond fs g m then m.time else g.lastFlushTime) := by
  by_cases h1 : flushCond fs g m <;> by_cases h2 : m.type = "SCHEMA" <;>
    simp [stepG, h1, h2]

/-- `stepG` grows the retained schema buffer by appending: the old buffer
stays a prefix. -/
theorem stepG_schema_prefix (fs : Int) (g : GState) (m : Msg) :
    ∃ t, (stepG fs g m).curSchemaBuffer = g.curSchemaBuffer ++ t ∧
      t.length ≤ m.raw.length := by
  by_cases h1 : flushCond fs g m <;> by_cases h2 : m.type = "SCHEMA"
  · exact ⟨m.raw, by simp [stepG, h1, h2], le_refl _⟩
  · exact ⟨[], by simp [stepG, h1, h2], by simp⟩
  · exact ⟨m.raw, by simp [stepG, h1, h2], le_refl _⟩
  · exact ⟨[], by simp [stepG, h1, h2], by simp⟩

/-- Over a whole list, the schema buffer still only grows by appending,
and by at most the total raw bytes of the list. -/
theorem foldl_stepG_schema (fs : Int) : ∀ (c : List Msg) (g : GState),
    ∃ t, (List.foldl (stepG fs) g c).curSchemaBuffer = g.curSchemaBuffer ++ t ∧
      t.length ≤ totalRaw c := by
  intro c
  induction c with
  | nil => intro g; exact ⟨[], by simp, by simp [totalRaw]⟩
  | cons m rest ih =>
    intro g
    obtain ⟨t1, ht1, hl1⟩ := stepG_schema_prefix fs g m
    obtain ⟨t2, ht2, hl2⟩ := ih (stepG fs g m)
    refine ⟨t1 ++ t2, ?_, ?_⟩
    · simp [List.foldl_cons, ht2, ht1]
    · rw [List.length_append, totalRaw_cons]; omega

/-- The lines a segment consumes followed by the lines it leaves behind
are the whole input. -/
theorem segRunC_append (fs : Int) : ∀ (input : List Msg) (g : GState),
    (segRunC fs g input).2.1 ++ (segRunC fs g input).2.2.1 = input := by
  intro input
  induction input with
  | nil => intro g; simp [segRunC]
  | cons m rest ih =>
    intro g
    by_cases hfc : flushCond fs g m = true
    · simp [segRunC, hfc]
    · rw [segRunC, if_neg (by simp [hfc])]
      dsimp only
      rw [List.cons_append, ih (stepG fs g m)]

/-- The globals after a segment are the `stepG` fold over the consumed
lines. -/
theorem segRunC_g_foldl (fs : Int) : ∀ (input : List Msg) (g : GState),
    (segRunC fs g input).1 = List.foldl (stepG fs) g (segRunC fs g input).2.1 := by
  intro input
  induction input with
  | nil => intro g; simp [segRunC]
  | cons m rest ih =>
    intro g
    by_cases hfc : flushCond fs g m = true
    · simp [segRunC, hfc]
    · rw [segRunC, if_neg (by simp [hfc])]
      dsimp only
      rw [List.foldl_cons, ih (stepG fs g m)]

/-- A segment that does not stop at a checkpoint has consumed the whole
input. -/
theorem segRunC_not_stopped (fs : Int) : ∀ (input : List Msg) (g : GState),
    (segRunC fs g input).2.2.2 = false → (segRunC fs g input).2.2.1 = [] := by
  intro input
  induction input with
  | nil => intro g _; simp [segRunC]
  | cons m rest ih =>
    intro g hstop
    by_cases hfc : flushCond fs g m = true
    · rw [segRunC, if_pos hfc] at hstop; simp at hstop
    · rw [segRunC, if_neg (by simp [hfc])] at hstop ⊢
      exact ih (stepG fs g m) hstop

/-- A segment that stops at a checkpoint consumed a non-empty list of
lines ending in the flushing STATE line. -/
theorem segRunC_stopped_shape (fs : Int) : ∀ (input : List Msg) (g : GState),
    (segRunC fs g input).2.2.2 = true →
    ∃ pre st, (segRunC fs g input).2.1 = pre ++ [st] ∧ st.type = "STATE" := by
  intro input
  induction input with
  | nil => intro g h; simp [segRunC] at h
  | cons m rest ih =>
    intro g hstop
    by_cases hfc : flushCond fs g m = true
    · refine ⟨[], m, ?_, flushCond_type fs g m hfc⟩
      rw [segRunC, if_pos hfc]
      simp
    · rw [segRunC, if_neg (by simp [hfc])] at hstop ⊢
      obtain ⟨pre, st, hpre, hst⟩ := ih (stepG fs g m) hstop
      exact ⟨m :: pre, st, by simp [hpre], hst⟩

/-! ## Pipeline bridge: `runPipeline` refines `pipeSpec` -/

theorem totalRaw_append (a b : List Msg) :
    totalRaw (a ++ b) = totalRaw a + totalRaw b := by
  simp [totalRaw]

theorem wibMeasure_mk (g : GState) (input : List Msg) (fs : Int) :
    wibMeasure (mkWrappedIoBuffer g input fs) =
      2 + input.length + g.curSchemaBuffer.length + totalRaw input := by
  simp [wibMeasure, mkWrappedIoBuffer]

/-- With per-segment fuel at least `pipeFuel`, the byte-level `main` loop
is exactly the line-level one: segment by segment, the delivered bytes are
the initial buffer followed by the raw bytes of the consumed lines. -/
theorem runPipeline_eq_pipeSpec (segFuel : Nat) (fs : Int) :
    ∀ (n : Nat) (g : GState) (input : List Msg),
    (∀ m ∈ input, m.raw ≠ []) →
    pipeFuel g input ≤ segFuel →
    runPipeline segFuel fs g input n =
      ((pipeSpec fs g input n).1.map
          (fun s => (⟨s.init, s.init ++ rawCat s.consumed, s.stopped⟩ : SegResult)),
       (pipeSpec fs g input n).2.1, (pipeSpec fs g input n).2.2) := by
  intro n
  induction n with
  | zero => intro g input _ _; rfl
  | succ n ih =>
    intro g input hraw hfuel
    have hmeas : wibMeasure (mkWrappedIoBuffer g input fs) ≤ segFuel := by
      rw [wibMeasure_mk]; simp [pipeFuel] at hfuel; omega
    have hw := drain_correct segFuel g (mkWrappedIoBuffer g input fs)
      rfl rfl rfl hraw hmeas
    simp only [mkWrappedIoBuffer] at hw
    rw [runPipeline, pipeSpec]
    simp only [mkWrappedIoBuffer]
    rw [hw]
    dsimp only
    have happ := segRunC_append fs input g
    have hgf := segRunC_g_foldl fs input g
    by_cases hst : (segRunC fs g input).2.2.2 = true
    · rw [if_pos hst, if_pos hst]
      have hrawr : ∀ m ∈ (segRunC fs g input).2.2.1, m.raw ≠ [] := by
        intro m hm
        exact hraw m (by rw [← happ]; exact List.mem_append_right _ hm)
      have hfuelr : pipeFuel (segRunC fs g input).1 (segRunC fs g input).2.2.1 ≤ segFuel := by
        obtain ⟨t, ht, hlt⟩ := foldl_stepG_schema fs (segRunC fs g input).2.1 g
        have hgrown : (segRunC fs g input).1.curSchemaBuffer.length ≤
            g.curSchemaBuffer.length + totalRaw (segRunC fs g input).2.1 := by
          rw [hgf, ht, List.length_append]; omega
        have hlen : (segRunC fs g input).2.1.length +
            (segRunC fs g input).2.2.1.length = input.length := by
          have h := congrArg List.length happ
          rwa [List.length_append] at h
        have htot : totalRaw (segRunC fs g input).2.1 +
            totalRaw (segRunC fs g input).2.2.1 = totalRaw input := by
          have h := congrArg totalRaw happ
          rwa [totalRaw_append] at h
        simp only [pipeFuel] at hfuel ⊢
        omega
      rw [ih (segRunC fs g input).1 (segRunC fs g input).2.2.1 hrawr hfuelr]
      rfl
    · rw [if_neg hst, if_neg hst]
      rfl

/-- With enough segments allowed, the line-level pipeline consumes the
entire input: the per-segment consumed lists concatenate to the input and
nothing is left pending. -/
theorem pipeSpec_consumed_join (fs : Int) :
    ∀ (n : Nat) (g : GState) (input : List Msg), input.length < n →
    ((pipeSpec fs g input n).1.map SegSpec.consumed).flatten = input ∧
      (pipeSpec fs g input n).2.2 = [] := by
  intro n
  induction n with
  | zero => intro g input h; omega
  | succ n ih =>
    intro g input hn
    have happ := segRunC_append fs input g
    rw [pipeSpec]
    dsimp only
    by_cases hst : (segRunC fs g input).2.2.2 = true
    · rw [if_pos hst]
      obtain ⟨pre, st, hshape, _⟩ := segRunC_stopped_shape fs input g hst
      have hlenc : 1 ≤ (segRunC fs g input).2.1.length := by
        rw [hshape]; simp
      have hlen : (segRunC fs g input).2.1.length +
          (segRunC fs g input).2.2.1.length = input.length := by
        have h := congrArg List.length happ
        rwa [List.length_append] at h
      have hrn : (segRunC fs g input).2.2.1.length < n := by omega
      obtain ⟨hj, hp⟩ := ih (segRunC fs g input).1 (segRunC fs g input).2.2.1 hrn
      constructor
      · simp only [List.map_cons, List.flatten_cons, hj]
        exact happ
      · exact hp
    · rw [if_neg hst]
      have hr : (segRunC fs g input).2.2.1 = [] :=
        segRunC_not_stopped fs input g (Bool.eq_false_iff.mpr hst)
      constructor
      · simp only [List.map_cons, List.map_nil, List.flatten_cons, List.flatten_nil,
          List.append_nil]
        rw [hr, List.append_nil] at happ
        exact happ
      · exact hr

/-- A non-SCHEMA line leaves the retained schema buffer unchanged. -/
theorem stepG_schema_of_not (fs : Int) (g : GState) (m : Msg)
    (h : m.type ≠ "SCHEMA") :
    (stepG fs g m).curSchemaBuffer = g.curSchemaBuffer := by
  by_cases h1 : flushCond fs g m <;> simp [stepG, h1, h]

theorem foldl_stepG_schema_of_not (fs : Int) :
    ∀ (c : List Msg) (g : GState), (∀ m ∈ c, m.type ≠ "SCHEMA") →
    (List.foldl (stepG fs) g c).curSchemaBuffer = g.curSchemaBuffer := by
  intro c
  induction c with
  | nil => intro g _; rfl
  | cons m rest ih =>
    intro g h
    rw [List.foldl_cons, ih (stepG fs g m) (fun x hx => h x (List.mem_cons_of_mem m hx)),
      stepG_schema_of_not fs g m (h m (List.mem_cons_self m rest))]

/-- On schema-free input starting with an empty retained buffer, every
segment's initial buffer is empty. -/
theorem pipeSpec_no_schema (fs : Int) :
    ∀ (n : Nat) (g : GState) (input : List Msg),
    g.curSchemaBuffer = [] → (∀ m ∈ input, m.type ≠ "SCHEMA") →
    ∀ s ∈ (pipeSpec fs g input n).1, s.init = [] := by
  intro n
  induction n with
  | zero => intro g input _ _ s hs; simp [pipeSpec] at hs
  | succ n ih =>
    intro g input hg hty
    have happ := segRunC_append fs input g
    rw [pipeSpec]
    dsimp only
    have hg' : (segRunC fs g input).1.curSchemaBuffer = [] := by
      rw [segRunC_g_foldl fs input g,
        foldl_stepG_schema_of_not fs (segRunC fs g input).2.1 g
          (fun m hm => hty m (by rw [← happ]; exact List.mem_append_left _ hm)), hg]
    have hty' : ∀ m ∈ (segRunC fs g input).2.2.1, m.type ≠ "SCHEMA" := by
      intro m hm
      exact hty m (by rw [← happ]; exact List.mem_append_right _ hm)
    by_cases hst : (segRunC fs g input).2.2.2 = true
    · rw [if_pos hst]
      intro s hs
      rcases List.mem_cons.mp hs with hs | hs
      · rw [hs]; exact hg
      · exact ih (segRunC fs g input).1 (segRunC fs g input).2.2.1 hg' hty' s hs
    · rw [if_neg hst]
      intro s hs
      rcases List.mem_cons.mp hs with hs | hs
      · rw [hs]; exact hg
      · simp at hs

theorem rawCat_flatten (L : List (List Msg)) :
    (L.map rawCat).flatten = rawCat L.flatten := by
  induction L with
  | nil => rfl
  | cons a t ih => simp [rawCat_append, ih]

/-- C1 (amended): across all segments, the bytes returned by successive
`WrappedIoBuffer.read` calls are, per segment, the retained schema buffer
at construction followed by the raw bytes of the lines consumed in that
segment; the consumed lines concatenate, in segment order, to exactly the
original input (nothing dropped, duplicated or reordered at the line
level), and the input is fully consumed; the delivered bytes equal the
input bytes exactly when no SCHEMA bytes are ever retained (schema-free
input and an empty initial retained buffer) -- otherwise segments after
the first replay the retained SCHEMA bytes. -/
theorem c1_segmentation_amended (segFuel n : Nat) (fs : Int) (g : GState)
    (input : List Msg)
    (hraw : ∀ m ∈ input, m.raw ≠ [])
    (hfuel : pipeFuel g input ≤ segFuel)
    (hn : input.length < n) :
    (runPipeline segFuel fs g input n).1.map SegResult.out =
      (pipeSpec fs g input n).1.map (fun s => s.init ++ rawCat s.consumed) ∧
    ((pipeSpec fs g input n).1.map SegSpec.consumed).flatten = input ∧
    (runPipeline segFuel fs g input n).2.2 = [] ∧
    (g.curSchemaBuffer = [] → (∀ m ∈ input, m.type ≠ "SCHEMA") →
      ((runPipeline segFuel fs g input n).1.map SegResult.out).flatten =
        rawCat input) := by
  have hb := runPipeline_eq_pipeSpec segFuel fs n g input hraw hfuel
  obtain ⟨hj, hp⟩ := pipeSpec_consumed_join fs n g input hn
  refine ⟨?_, hj, ?_, ?_⟩
  · rw [hb]
    dsimp only
    rw [List.map_map]
    rfl
  · rw [hb]
    exact hp
  · intro hg hty
    rw [hb]
    dsimp only
    rw [List.map_map]
    have hcong : ∀ s ∈ (pipeSpec fs g input n).1,
        (SegResult.out ∘ fun s =>
          (⟨s.init, s.init ++ rawCat s.consumed, s.stopped⟩ : SegResult)) s
          = (rawCat ∘ SegSpec.consumed) s := by
      intro s hs
      have hi := pipeSpec_no_schema fs n g input hg hty s hs
      simp [Function.comp, hi]
    rw [List.map_congr_left hcong, ← List.map_map, rawCat_flatten, hj]

/-- Witness for `c1_segmentation_amended` at the concrete input used by the
counterexample: the line-level pipeline consumes exactly the input. -/
theorem c1_segmentation_amended_witness :
    ((pipeSpec 0 ⟨[], 0⟩ c1Input 4).1.map SegSpec.consumed).flatten = c1Input :=
  (c1_segmentation_amended 20 4 0 ⟨[], 0⟩ c1Input (by decide) (by decide)
    (by decide)).2.1

/-! ## Decomposition of arbitrary `read` sequences (for checkpoint alignment) -/

/-- One `read` call of any size, decomposed against its starting state: it
consumes at most one line (`done`); the returned bytes plus the remaining
buffer extend the old buffer by exactly the raw bytes of `done`; the
globals evolve by `stepG` over `done`; an empty stream consumes nothing
and stays empty; and `stoppedState` can newly become true only by fully
consuming a STATE line, in which case the stream is also marked empty. -/
theorem read_decomp (g : GState) (w : WrappedIoBuffer) (size : Int)
    (hraw : ∀ m ∈ w.pending, m.raw ≠ []) :
    ∃ done : List Msg,
      w.pending = done ++ (read g w size).2.1.pending ∧
      (read g w size).2.2 ++ (read g w size).2.1.buffer =
        w.buffer ++ rawCat done ∧
      (read g w size).1 = List.foldl (stepG w.flushSeconds) g done ∧
      (read g w size).2.1.flushSeconds = w.flushSeconds ∧
      (w.empty = true → done = []) ∧
      (w.empty = true → (read g w size).2.1.empty = true) ∧
      ((read g w size).2.1.stoppedState = true →
        w.stoppedState = true ∨ ∃ pre st, done = pre ++ [st] ∧ st.type = "STATE") ∧
      ((w.stoppedState = true → w.empty = true) →
        ((read g w size).2.1.stoppedState = true →
          (read g w size).2.1.empty = true)) := by
  by_cases hlt : w.buffer.length < pyReadSize size
  · by_cases hem : w.empty = true ∨ w.closed = true
    · have hr := read_slide g w size (by
        rcases hem with h | h
        · exact Or.inl h
        · exact Or.inr (Or.inl h))
      refine ⟨[], ?_⟩
      by_cases h0 : w.buffer.length = 0 <;>
        simp [hr, h0, rawCat_nil, List.take_append_drop]
    · push_neg at hem
      obtain ⟨he, hc⟩ := hem
      have he' : w.empty = false := Bool.eq_false_iff.mpr he
      have hc' : w.closed = false := Bool.eq_false_iff.mpr hc
      rcases hp : w.pending with _ | ⟨m, rest⟩
      · have hr := read_eof g w size he' hc' hp hlt
        refine ⟨[], ?_⟩
        by_cases h0 : w.buffer.length = 0 <;>
          simp [hr, h0, hp, rawCat_nil, List.take_append_drop, he']
      · have hmr : m.raw ≠ [] := hraw m (by rw [hp]; exact List.mem_cons_self m rest)
        have hr := read_consume g w size m rest he' hc' hp hlt hmr
        refine ⟨[m], ?_⟩
        refine ⟨by simp [hr, hp], ?_, by simp [hr], by simp [hr],
          by simp [he'], by simp [he'], ?_, ?_⟩
        · simp only [hr, rawCat_cons, rawCat_nil, List.append_nil]
          exact List.take_append_drop _ _
        · intro hstop
          simp only [hr] at hstop
          have hstop' : w.stoppedState = true ∨ flushCond w.flushSeconds g m = true := by
            simpa using hstop
          rcases hstop' with h | h
          · exact Or.inl h
          · exact Or.inr ⟨[], m, by simp, flushCond_type _ _ _ h⟩
        · intro hinv hstop
          simp only [hr] at hstop ⊢
          have hstop' : w.stoppedState = true ∨ flushCond w.flushSeconds g m = true := by
            simpa using hstop
          rcases hstop' with h | h
          · exact absurd (hinv h) (by simp [he'])
          · exact h
  · have hr := read_slide g w size (Or.inr (Or.inr hlt))
    refine ⟨[], ?_⟩
    by_cases h0 : w.buffer.length = 0 <;>
      simp [hr, h0, rawCat_nil, List.take_append_drop]

/-- A sequence of `read` calls of arbitrary sizes, decomposed against its
starting state.  `done` is the list of lines consumed during the whole
sequence. -/
theorem runReads_decomp (sizes : List Int) : ∀ (g : GState) (w : WrappedIoBuffer),
    (∀ m ∈ w.pending, m.raw ≠ []) →
    (w.stoppedState = true → w.empty = true) →
    ∃ done : List Msg,
      w.pending = done ++ (runReads g w sizes).2.1.pending ∧
      (runReads g w sizes).2.2 ++ (runReads g w sizes).2.1.buffer =
        w.buffer ++ rawCat done ∧
      (runReads g w sizes).1 = List.foldl (stepG w.flushSeconds) g done ∧
      (runReads g w sizes).2.1.flushSeconds = w.flushSeconds ∧
      (w.empty = true → done = []) ∧
      (w.empty = true → (runReads g w sizes).2.1.empty = true) ∧
      ((runReads g w sizes).2.1.stoppedState = true →
        (runReads g w sizes).2.1.empty = true) ∧
      ((runReads g w sizes).2.1.stoppedState = true →
        w.stoppedState = true ∨ ∃ pre st, done = pre ++ [st] ∧ st.type = "STATE") := by
  induction sizes with
  | nil =>
    intro g w hraw hstop
    refine ⟨[], rfl, ?_, rfl, rfl, fun _ => rfl, fun h => h, hstop,
      fun h => Or.inl h⟩
    simp [runReads, rawCat_nil]
  | cons s rest ih =>
    intro g w hraw hstop
    obtain ⟨d1, r1, r2, r3, r4, r5, r6, r7, r8⟩ := read_decomp g w s hraw
    have hraw1 : ∀ m ∈ (read g w s).2.1.pending, m.raw ≠ [] := by
      intro m hm
      exact hraw m (by rw [r1]; exact List.mem_append_right _ hm)
    obtain ⟨d2, t1, t2, t3, t4, t5, t6, t7, t8⟩ :=
      ih (read g w s).1 (read g w s).2.1 hraw1 (r8 hstop)
    rw [r4] at t3 t4
    refine ⟨d1 ++ d2, ?_, ?_, ?_, ?_, ?_, ?_, ?_, ?_⟩
    · rw [runReads]
      dsimp only
      rw [r1, t1, List.append_assoc]
    · rw [runReads]
      dsimp only
      rw [List.append_assoc, t2, ← List.append_assoc, r2, rawCat_append,
        List.append_assoc]
    · rw [runReads]
      dsimp only
      rw [t3, r3, List.foldl_append]
    · rw [runReads]
      dsimp only
      rw [t4]
    · intro he
      rw [r5 he, t5 (r6 he)]
      rfl
    · intro he
      rw [runReads]
      dsimp only
      exact t6 (r6 he)
    · rw [runReads]
      dsimp only
      exact t7
    · rw [runReads]
      dsimp only
      intro hstop2
      rcases t8 hstop2 with h | ⟨pre, st, hpre, hty⟩
      · rcases r7 h with h' | ⟨pre, st, hpre, hty⟩
        · exact Or.inl h'
        · have hd2 : d2 = [] := t5 (r8 hstop h)
          exact Or.inr ⟨pre, st, by rw [hd2, hpre, List.append_nil], hty⟩
      · exact Or.inr ⟨d1 ++ pre, st, by rw [hpre, List.append_assoc], hty⟩

/-- C5: for any sequence of `read` calls on a freshly constructed
`WrappedIoBuffer`, if the final `stoppedState` is true then the lines
consumed from the input end with exactly one complete STATE message --
the stop happens immediately after, and only after, fully consuming a
STATE line, never mid-message and never after a line of another type; the
byte equation shows that line fully appended to the segment's buffer as
its last line. -/
theorem c5_checkpoint_alignment (g : GState) (input : List Msg) (fs : Int)
    (sizes : List Int)
    (hraw : ∀ m ∈ input, m.raw ≠ [])
    (hstop : (runReads g (mkWrappedIoBuffer g input fs) sizes).2.1.stoppedState
      = true) :
    ∃ pre st,
      input = (pre ++ [st]) ++
        (runReads g (mkWrappedIoBuffer g input fs) sizes).2.1.pending ∧
      st.type = "STATE" ∧
      (runReads g (mkWrappedIoBuffer g input fs) sizes).2.2 ++
        (runReads g (mkWrappedIoBuffer g input fs) sizes).2.1.buffer =
        g.curSchemaBuffer ++ rawCat (pre ++ [st]) := by
  obtain ⟨done, h1, h2, _, _, _, _, _, h8⟩ :=
    runReads_decomp sizes g (mkWrappedIoBuffer g input fs)
      (by simpa [mkWrappedIoBuffer] using hraw) (by simp [mkWrappedIoBuffer])
  rcases h8 hstop with h | ⟨pre, st, hdone, hty⟩
  · simp [mkWrappedIoBuffer] at h
  · rw [hdone] at h1 h2
    exact ⟨pre, st, by simpa [mkWrappedIoBuffer] using h1, hty,
      by simpa [mkWrappedIoBuffer] using h2⟩

/-- Witness for `c5_checkpoint_alignment`: a single flush-triggering STATE
line. -/
theorem c5_checkpoint_alignment_witness :
    ∃ pre st,
      [(⟨[1], "STATE", 5⟩ : Msg)] = (pre ++ [st]) ++
        (runReads ⟨[7], 0⟩ (mkWrappedIoBuffer ⟨[7], 0⟩ [⟨[1], "STATE", 5⟩] 0)
          [8192, 8192]).2.1.pending ∧
      st.type = "STATE" ∧
      (runReads ⟨[7], 0⟩ (mkWrappedIoBuffer ⟨[7], 0⟩ [⟨[1], "STATE", 5⟩] 0)
          [8192, 8192]).2.2 ++
        (runReads ⟨[7], 0⟩ (mkWrappedIoBuffer ⟨[7], 0⟩ [⟨[1], "STATE", 5⟩] 0)
          [8192, 8192]).2.1.buffer =
        [7] ++ rawCat (pre ++ [st]) :=
  c5_checkpoint_alignment ⟨[7], 0⟩ [⟨[1], "STATE", 5⟩] 0 [8192, 8192]
    (by decide) (by decide)

/-! ## Schema carry-forward (C6) -/

/-- A SCHEMA line consumed anywhere in a list leaves its raw bytes as an
infix of the retained schema buffer after folding `stepG` over the list. -/
theorem mem_schema_infix (fs : Int) : ∀ (c : List Msg) (g : GState) (m : Msg),
    m ∈ c → m.type = "SCHEMA" →
    List.IsInfix m.raw (List.foldl (stepG fs) g c).curSchemaBuffer := by
  intro c
  induction c with
  | nil => intro g m hm; simp at hm
  | cons x t ih =>
    intro g m hm hty
    rcases List.mem_cons.mp hm with rfl | hm
    · have hx : (stepG fs g m).curSchemaBuffer =
          (if flushCond fs g m then ({ g with lastFlushTime := m.time } : GState)
            else g).curSchemaBuffer ++ m.raw := by
        by_cases h1 : flushCond fs g m <;> simp [stepG, h1, hty]
      obtain ⟨t2, ht2, _⟩ := foldl_stepG_schema fs t (stepG fs g m)
      rw [List.foldl_cons, ht2, hx]
      exact ⟨(if flushCond fs g m then ({ g with lastFlushTime := m.time } : GState)
        else g).curSchemaBuffer, t2, by rw [List.append_assoc]⟩
    · rw [List.foldl_cons]
      exact ih (stepG fs g x) m hm hty

/-- The first segment of any non-empty line-level pipeline starts with the
current retained schema buffer as its initial content. -/
theorem pipeSpec_head_init (fs : Int) :
    ∀ (n : Nat) (g : GState) (input : List Msg) (s : SegSpec),
    (pipeSpec fs g input n).1.get? 0 = some s → s.init = g.curSchemaBuffer := by
  intro n
  cases n with
  | zero => intro g input s h; simp [pipeSpec] at h
  | succ n =>
    intro g input s h
    rw [pipeSpec] at h
    dsimp only at h
    by_cases hst : (segRunC fs g input).2.2.2 = true
    · rw [if_pos hst] at h
      simp at h
      rw [← h]
    · rw [if_neg hst] at h
      simp at h
      rw [← h]

/-- A SCHEMA line consumed in segment `k` is an infix of segment `k+1`'s
initial buffer content. -/
theorem pipeSpec_carry (fs : Int) :
    ∀ (n : Nat) (g : GState) (input : List Msg) (k : Nat) (sk sk1 : SegSpec),
      (pipeSpec fs g input n).1.get? k = some sk →
      (pipeSpec fs g input n).1.get? (k + 1) = some sk1 →
      ∀ m ∈ sk.consumed, m.type = "SCHEMA" →
      List.IsInfix m.raw sk1.init := by
  intro n
  induction n with
  | zero => intro g input k sk sk1 hk; simp [pipeSpec] at hk
  | succ n ih =>
    intro g input k sk sk1 hk hk1 m hm hty
    rw [pipeSpec] at hk hk1
    dsimp only at hk hk1
    by_cases hst : (segRunC fs g input).2.2.2 = true
    · rw [if_pos hst] at hk hk1
      cases k with
      | zero =>
        have hsk : sk = ⟨g.curSchemaBuffer, (segRunC fs g input).2.1,
            (segRunC fs g input).2.2.2⟩ := by
          simpa using hk.symm
        have hk1' : (pipeSpec fs (segRunC fs g input).1
            (segRunC fs g input).2.2.1 n).1.get? 0 = some sk1 := by
          simpa using hk1
        rw [pipeSpec_head_init fs n (segRunC fs g input).1
          (segRunC fs g input).2.2.1 sk1 hk1', segRunC_g_foldl fs input g]
        exact mem_schema_infix fs (segRunC fs g input).2.1 g m
          (by rw [hsk] at hm; exact hm) hty
      | succ j =>
        exact ih (segRunC fs g input).1 (segRunC fs g input).2.2.1 j sk sk1
          (by simpa using hk) (by simpa using hk1) m hm hty
    · rw [if_neg hst] at hk1
      simp at hk1

/-- C6: every SCHEMA line consumed while segment K is active has its raw
bytes contained in the initial buffer the `WrappedIoBuffer` of segment K+1
is constructed with (before any new byte is read during segment K+1), and
the byte-level pipeline's recorded initial buffers agree with the
line-level ones. -/
theorem c6_schema_carry (segFuel n : Nat) (fs : Int) (g : GState)
    (input : List Msg)
    (hraw : ∀ m ∈ input, m.raw ≠ []) (hfuel : pipeFuel g input ≤ segFuel)
    (k : Nat) (sk sk1 : SegSpec)
    (hk : (pipeSpec fs g input n).1.get? k = some sk)
    (hk1 : (pipeSpec fs g input n).1.get? (k + 1) = some sk1)
    (m : Msg) (hm : m ∈ sk.consumed) (hty : m.type = "SCHEMA") :
    List.IsInfix m.raw sk1.init ∧
    (runPipeline segFuel fs g input n).1.map SegResult.init =
      (pipeSpec fs g input n).1.map SegSpec.init := by
  constructor
  · exact pipeSpec_carry fs n g input k sk sk1 hk hk1 m hm hty
  · rw [runPipeline_eq_pipeSpec segFuel fs n g input hraw hfuel]
    dsimp only
    rw [List.map_map]
    rfl

/-- Witness for `c6_schema_carry`: the SCHEMA line of segment 0 appears in
segment 1's initial buffer. -/
theorem c6_schema_carry_witness :
    List.IsInfix ([1] : Bytes)
      (SegSpec.init ⟨[1], [⟨[3], "RECORD", 20⟩], false⟩) :=
  (c6_schema_carry 20 4 0 ⟨[], 0⟩
    [⟨[1], "SCHEMA", 5⟩, ⟨[2], "STATE", 10⟩, ⟨[3], "RECORD", 20⟩]
    (by decide) (by decide) 0
    ⟨[], [⟨[1], "SCHEMA", 5⟩, ⟨[2], "STATE", 10⟩], true⟩
    ⟨[1], [⟨[3], "RECORD", 20⟩], false⟩
    (by decide) (by decide) ⟨[1], "SCHEMA", 5⟩ (by decide) rfl).1

/-! ## Flush-interval lower bound (C9) -/

/-- The first flush over a list fires strictly more than `fs` after the
current `lastFlushTime`. -/
theorem flushTimes_head (fs : Int) : ∀ (lines : List Msg) (g : GState) (t : Int),
    (flushTimes fs g lines).head? = some t → fs < t - g.lastFlushTime := by
  intro lines
  induction lines with
  | nil => intro g t h; simp [flushTimes] at h
  | cons m rest ih =>
    intro g t h
    rw [flushTimes] at h
    by_cases hfc : flushCond fs g m = true
    · rw [if_pos hfc] at h
      simp at h
      rw [← h]
      exact ((flushCond_iff fs g m).mp hfc).2
    · rw [if_neg hfc] at h
      have := ih (stepG fs g m) t h
      rwa [stepG_lastFlushTime, if_neg hfc] at this

/-- Consecutive flush times are separated by strictly more than `fs`. -/
theorem flushTimes_chain (fs : Int) : ∀ (lines : List Msg) (g : GState),
    List.Chain' (fun a b => fs < b - a) (flushTimes fs g lines) := by
  intro lines
  induction lines with
  | nil => intro g; simp [flushTimes]
  | cons m rest ih =>
    intro g
    rw [flushTimes]
    by_cases hfc : flushCond fs g m = true
    · rw [if_pos hfc]
      rw [List.chain'_cons']
      refine ⟨?_, ih (stepG fs g m)⟩
      intro b hb
      have := flushTimes_head fs rest (stepG fs g m) b hb
      rwa [stepG_lastFlushTime, if_pos hfc] at this
    · rw [if_neg hfc]
      exact ih (stepG fs g m)

/-- The pipeline's final globals are the `stepG` fold over all consumed
lines, in order. -/
theorem pipeSpec_g_foldl (fs : Int) : ∀ (n : Nat) (g : GState) (input : List Msg),
    (pipeSpec fs g input n).2.1 =
      List.foldl (stepG fs) g
        (((pipeSpec fs g input n).1.map SegSpec.consumed).flatten) := by
  intro n
  induction n with
  | zero => intro g input; rfl
  | succ n ih =>
    intro g input
    rw [pipeSpec]
    dsimp only
    by_cases hst : (segRunC fs g input).2.2.2 = true
    · rw [if_pos hst]
      dsimp only
      rw [ih (segRunC fs g input).1 (segRunC fs g input).2.2.1]
      rw [segRunC_g_foldl fs input g]
      simp [List.foldl_append]
    · rw [if_neg hst]
      dsimp only
      rw [segRunC_g_foldl fs input g]
      simp

/-- C9: given any input (in particular a steady stream of STATE lines),
two consecutive checkpoint-triggered flushes of the pipeline are separated
by strictly more than `flushSeconds` (hence by at least `flushSeconds`);
the pipeline's globals evolve as the `stepG` fold over the consumed lines;
a STATE line triggers a flush exactly when the elapsed time since
`lastFlushTime` strictly exceeds `flushSeconds`; and `lastFlushTime` is
rewritten to the triggering line's time exactly at a triggered stop and is
unchanged otherwise. -/
theorem c9_flush_interval (fs : Int) (n : Nat) (g : GState) (input : List Msg) :
    List.Chain' (fun a b => fs < b - a)
      (flushTimes fs g (((pipeSpec fs g input n).1.map SegSpec.consumed).flatten)) ∧
    (pipeSpec fs g input n).2.1 =
      List.foldl (stepG fs) g
        (((pipeSpec fs g input n).1.map SegSpec.consumed).flatten) ∧
    (∀ (g' : GState) (m : Msg),
      flushCond fs g' m = true ↔
        m.type = "STATE" ∧ fs < m.time - g'.lastFlushTime) ∧
    (∀ (g' : GState) (m : Msg), flushCond fs g' m = true →
      (stepG fs g' m).lastFlushTime = m.time) ∧
    (∀ (g' : GState) (m : Msg), flushCond fs g' m = false →
      (stepG fs g' m).lastFlushTime = g'.lastFlushTime) := by
  refine ⟨flushTimes_chain fs _ g, pipeSpec_g_foldl fs n g input,
    fun g' m => flushCond_iff fs g' m, ?_, ?_⟩
  · intro g' m h
    rw [stepG_lastFlushTime, if_pos h]
  · intro g' m h
    rw [stepG_lastFlushTime, if_neg (by simp [h])]

/-- Witness for `c9_flush_interval`: a triggered flush records the line's
own time as the new `lastFlushTime`. -/
theorem c9_flush_interval_witness :
    (stepG 0 ⟨[], 0⟩ ⟨[1], "STATE", 5⟩).lastFlushTime = 5 :=
  (c9_flush_interval 0 1 ⟨[], 0⟩ []).2.2.2.1 ⟨[], 0⟩ ⟨[1], "STATE", 5⟩ (by decide)

/-! ## C1 and C2: concrete pipeline runs -/

/-- C1, counterexample: on the input SCHEMA, STATE (flush-triggering),
RECORD, the pipeline produces two segments and the second replays the
retained SCHEMA bytes, so the bytes delivered across all `read` calls are
`[1, 2, 1, 3]`, not the original input `[1, 2, 3]`: the SCHEMA message is
delivered twice. -/
theorem c1_counterexample :
    ((runPipeline 20 0 ⟨[], 0⟩ c1Input 4).1.map SegResult.out).flatten
        = [1, 2, 1, 3] ∧
    ((runPipeline 20 0 ⟨[], 0⟩ c1Input 4).1.map SegResult.out).flatten
        ≠ rawCat c1Input := by
  decide

/-- C2, counterexample: with `flush_seconds=0` the truthiness test in
`main` (`config.get('flush_seconds') if config.get('flush_seconds') else
10*60`) discards the 0 and uses the 600-second default, so on the
three-line scenario (processed well within 600 s of startup) the STATE
line does not trigger a checkpoint stop: the single completed segment has
`stoppedState = false`, not `true` as claimed. -/
theorem c2_counterexample :
    resolveFlushSeconds (some 0) = 600 ∧
    (runPipeline 50 (resolveFlushSeconds (some 0)) scenarioG0 scenarioInput 4).1.map
        SegResult.stopped = [false] ∧
    (runPipeline 50 (resolveFlushSeconds (some 0)) scenarioG0 scenarioInput 4).1.map
        SegResult.stopped ≠ [true] := by
  refine ⟨rfl, by decide, by decide⟩

/-- C2 (amended): with `flush_seconds=0` the effective flush interval is
the 600-second default; assuming the lines are processed less than 600 s
after startup, the run produces exactly one completed segment whose
delivered bytes are exactly the three input lines, with
`stoppedAtCheckpoint() = false` and the whole input consumed; and with
`compression=none` the resolved destination template carries no
compression suffix. -/
theorem c2_scenario_amended :
    resolveFlushSeconds (some 0) = 600 ∧
    (runPipeline 50 (resolveFlushSeconds (some 0)) scenarioG0 scenarioInput 4).1 =
      [⟨[], rawCat scenarioInput, false⟩] ∧
    (runPipeline 50 (resolveFlushSeconds (some 0)) scenarioG0 scenarioInput 4).2.2 = [] ∧
    config_compression ⟨some "none", "template-resolved-key"⟩ =
      Except.ok ⟨"none", "template-resolved-key", OpenFunc.pyOpen⟩ := by
  refine ⟨rfl, by decide, by decide, rfl⟩

/-! ## C3: compression resolution -/

/-- C3, counterexample: the claim says scheme `'none'` resolves to the
identity encoding function so that `put_object` uploads the joined JSON
lines unchanged.  In the source, `'none'` sets `open_func` to the builtin
`open`, which treats the payload as a filesystem path; applied in
`put_object` it does not produce the joined payload. -/
theorem c3_counterexample :
    config_compression ⟨some "none", "p"⟩ =
      Except.ok ⟨"none", "p", OpenFunc.pyOpen⟩ ∧
    put_object_body OpenFunc.pyOpen [[123, 125]] ≠
      Except.ok (joinJsonLines [[123, 125]]) := by
  decide

/-- C3 (amended): `config_compression` resolves `'none'` (or an absent key)
to the builtin `open` with no key suffix -- not an identity byte encoding,
so `put_object` never yields the unchanged payload under it; `'gzip'`
resolves to `gzip.compress` with suffix `.gz` and `'lzma'` to
`lzma.compress` with suffix `.xz`, both with exact round-trip decoding;
any other scheme is rejected by `config_compression` itself
(resolution time), not per upload. -/
theorem c3_compression_amended (p : String) (b : Bytes) (records : List Bytes)
    (s : String) :
    config_compression ⟨some "none", p⟩ =
      Except.ok ⟨"none", p, OpenFunc.pyOpen⟩ ∧
    config_compression ⟨none, p⟩ =
      Except.ok ⟨"none", p, OpenFunc.pyOpen⟩ ∧
    (∀ out, put_object_body OpenFunc.pyOpen records ≠ Except.ok out) ∧
    config_compression ⟨some "gzip", p⟩ =
      Except.ok ⟨"gzip", p ++ ".gz", OpenFunc.gzipCompress⟩ ∧
    gzipDecompressBytes (gzipCompressBytes b) = b ∧
    config_compression ⟨some "lzma", p⟩ =
      Except.ok ⟨"lzma", p ++ ".xz", OpenFunc.lzmaCompress⟩ ∧
    lzmaDecompressBytes (lzmaCompressBytes b) = b ∧
    (¬(pyLower s = "gzip" ∨ pyLower s = "lzma" ∨ pyLower s = "" ∨ pyLower s = "none") →
      ∃ msg, config_compression ⟨some s, p⟩ = Except.error msg) := by
  refine ⟨?_, ?_, ?_, ?_, ?_, ?_, ?_, ?_⟩
  · rfl
  · rfl
  · intro out h
    simp [put_object_body, applyOpenFunc] at h
  · rfl
  · simp [gzipDecompressBytes, gzipCompressBytes]
  · rfl
  · simp [lzmaDecompressBytes, lzmaCompressBytes]
  · intro h
    unfold config_compression
    simp only [Option.getD]
    split_ifs with h1 h2 h3
    · exact absurd (Or.inl h1) h
    · exact absurd (Or.inr (Or.inl h2)) h
    · rcases h3 with h3 | h3
      · exact absurd (Or.inr (Or.inr (Or.inl h3))) h
      · exact absurd (Or.inr (Or.inr (Or.inr h3))) h
    · exact ⟨_, rfl⟩

/-- Witness for `c3_compression_amended` at a concrete unsupported scheme. -/
theorem c3_compression_amended_witness :
    ∃ msg, config_compression ⟨some "zip", "p"⟩ = Except.error msg :=
  (c3_compression_amended "p" [1] [[1]] "zip").2.2.2.2.2.2.2 (by decide)

/-! ## C4: proxy resolution -/

/-- C4, counterexample: the claim says that when the `proxies` config key
is present the client uses the configured value regardless of the
environment.  In the source the environment check is a second independent
`if`, so a truthy `HTTP_PROXY` overwrites the configured proxies. -/
theorem c4_counterexample :
    resolveProxyConfig (some [("http", some "http_from_config")])
        (some "http_from_env") (some "https_from_env") =
      [("http", some "http_from_env"), ("https", some "https_from_env")] ∧
    resolveProxyConfig (some [("http", some "http_from_config")])
        (some "http_from_env") (some "https_from_env") ≠
      [("http", some "http_from_config")] := by
  decide

/-- C4 (amended): the environment is consulted unconditionally and takes
precedence: whenever `HTTP_PROXY` is truthy (set and non-empty) the client
is built from the environment pair even if `proxies` is configured; the
configured `proxies` value is used only when `HTTP_PROXY` is absent or
empty; with neither, the proxy map is empty. -/
theorem c4_proxy_amended (cfgProxies : Option ProxyMap)
    (envHttpProxy envHttpsProxy : Option String) :
    (pyTruthyStrOpt envHttpProxy = true →
      resolveProxyConfig cfgProxies envHttpProxy envHttpsProxy =
        [("http", envHttpProxy), ("https", envHttpsProxy)]) ∧
    (pyTruthyStrOpt envHttpProxy = false → pyTruthyMapOpt cfgProxies = true →
      resolveProxyConfig cfgProxies envHttpProxy envHttpsProxy =
        cfgProxies.getD []) ∧
    (pyTruthyStrOpt envHttpProxy = false → pyTruthyMapOpt cfgProxies = false →
      resolveProxyConfig cfgProxies envHttpProxy envHttpsProxy = []) := by
  refine ⟨?_, ?_, ?_⟩ <;> intro h1 <;>
    simp [resolveProxyConfig, h1] <;> intro h2 <;> simp [h2]

/-- Witness for `c4_proxy_amended`: configured proxies win only when the
environment variable is unset. -/
theorem c4_proxy_amended_witness :
    resolveProxyConfig (some [("http", some "cfg")]) none none =
      [("http", some "cfg")] :=
  (c4_proxy_amended (some [("http", some "cfg")]) none none).2.1 (by decide) (by decide)

/-! ## C7: retry policy -/

/-- C7: with `max_tries=5` and `factor=10`, an operation failing with a
remote-service error on invocations 0..3 and succeeding on invocation 4
yields the success after exactly 5 invocations with strictly increasing
backoff delays `[10, 20, 40, 80]`; an operation failing on all 5
invocations is invoked exactly 5 times and its final error propagates. -/
theorem c7_retry_bound (E A : Type) (op : Nat → Except E A) (a : A) (e : Nat → E) :
    ((∀ i, i < 4 → op i = Except.error (e i)) → op 4 = Except.ok a →
      retry_pattern_run op = (Except.ok a, 5, [10, 20, 40, 80]) ∧
        List.Chain' (· < ·) [10, 20, 40, 80]) ∧
    ((∀ i, i ≤ 4 → op i = Except.error (e i)) →
      retry_pattern_run op = (Except.error (e 4), 5, [10, 20, 40, 80])) := by
  constructor
  · intro hf hs
    have h0 := hf 0 (by norm_num)
    have h1 := hf 1 (by norm_num)
    have h2 := hf 2 (by norm_num)
    have h3 := hf 3 (by norm_num)
    constructor
    · simp [retry_pattern_run, retryRun, h0, h1, h2, h3, hs]
    · norm_num [List.chain'_cons]
  · intro hf
    have h0 := hf 0 (by norm_num)
    have h1 := hf 1 (by norm_num)
    have h2 := hf 2 (by norm_num)
    have h3 := hf 3 (by norm_num)
    have h4 := hf 4 (by norm_num)
    simp [retry_pattern_run, retryRun, h0, h1, h2, h3, h4]

/-- Witness for `c7_retry_bound` on a concrete operation failing four
times then succeeding, and one failing always. -/
theorem c7_retry_bound_witness :
    (retry_pattern_run (fun i => if i < 4 then Except.error i else Except.ok 42) =
      (Except.ok 42, 5, [10, 20, 40, 80]) ∧
      List.Chain' (· < ·) [10, 20, 40, 80]) ∧
    retry_pattern_run (fun i : Nat => (Except.error i : Except Nat Nat)) =
      (Except.error 4, 5, [10, 20, 40, 80]) := by
  constructor
  · exact (c7_retry_bound Nat Nat _ 42 (fun i => i)).1
      (fun i hi => by simp [hi]) (by norm_num)
  · exact (c7_retry_bound Nat Nat _ 42 (fun i => i)).2 (fun i _ => rfl)

/-! ## C8 and C10: upload_file -/

/-- Functional characterization of `upload_file`, proved by exhausting the
flag and file cases. -/
theorem upload_file_eq (config : UploadFileConfig) (fm : FileMetadataDisk) :
    upload_file config fm =
      if config.localFlag.getD false = false ∧ fm.pathExists = true ∧ 0 < fm.st_size
      then ⟨true, config.remove_file.getD true⟩ else ⟨false, false⟩ := by
  obtain ⟨l, r⟩ := config
  obtain ⟨pe, sz⟩ := fm
  by_cases hsz : 0 < sz <;> cases pe <;> rcases l with _ | (_ | _) <;>
    simp [upload_file, hsz]

/-- C8: `upload_file` makes the network call exactly when the `local` flag
is falsy and the file exists with non-zero size; a missing or zero-byte
file is a silent no-op (no call, no deletion, no error -- the model is
total); `local=true` suppresses both the call and the deletion; after a
successful upload, a truthy `remove_file` deletes the local file. -/
theorem c8_upload_file (config : UploadFileConfig) (fm : FileMetadataDisk) :
    ((upload_file config fm).uploadCalled = true ↔
      config.localFlag.getD false = false ∧ fm.pathExists = true ∧ 0 < fm.st_size) ∧
    (fm.pathExists = false ∨ fm.st_size = 0 →
      upload_file config fm = ⟨false, false⟩) ∧
    (config.localFlag = some true → upload_file config fm = ⟨false, false⟩) ∧
    ((upload_file config fm).uploadCalled = true →
      config.remove_file.getD true = true →
      (upload_file config fm).fileRemoved = true) := by
  rw [upload_file_eq]
  by_cases h : config.localFlag.getD false = false ∧ fm.pathExists = true ∧ 0 < fm.st_size
  · rw [if_pos h]
    refine ⟨by simpa using h, ?_, ?_, fun _ hr => by simpa using hr⟩
    · rintro (hpe | hsz)
      · exact absurd h.2.1 (by simp [hpe])
      · exact absurd h.2.2 (by omega)
    · intro hl
      exact absurd h.1 (by simp [hl])
  · rw [if_neg h]
    exact ⟨by simpa using h, fun _ => rfl, fun _ => rfl, by simp⟩

/-- Witness for `c8_upload_file`: a non-local, existing, non-empty file
with `remove_file=true` is uploaded and then removed. -/
theorem c8_upload_file_witness :
    (upload_file ⟨some false, some true⟩ ⟨true, 5⟩).fileRemoved = true :=
  (c8_upload_file ⟨some false, some true⟩ ⟨true, 5⟩).2.2.2 (by decide) (by decide)

/-- C10: with the `remove_file` key absent, `config.get('remove_file',
True)` makes deletion the default: every successful non-local upload of an
existing non-empty file deletes the local file. -/
theorem c10_remove_file_default (localFlag : Option Bool) (fm : FileMetadataDisk)
    (hl : localFlag.getD false = false) (he : fm.pathExists = true)
    (hs : 0 < fm.st_size) :
    upload_file ⟨localFlag, none⟩ fm = ⟨true, true⟩ := by
  rw [upload_file_eq, if_pos ⟨hl, he, hs⟩]
  rfl

/-- Witness for `c10_remove_file_default` at a concrete file. -/
theorem c10_remove_file_default_witness :
    upload_file ⟨none, none⟩ ⟨true, 1⟩ = ⟨true, true⟩ :=
  c10_remove_file_default none ⟨true, 1⟩ (by decide) (by decide) (by decide)

end TargetS3
